import Mathlib

/-!
Verification of `scripts/export_games_to_csv.py`.

The script is modelled by a shallow embedding: YAML values are the inductive
type `Value`, Python dicts are insertion-ordered association lists, Python
exceptions are `Except String`, and the filesystem/YAML parser (external
collaborators) are modelled by passing each file's parse outcome as data.
-/

namespace ExportGames

/-- A Python/YAML value as produced by `yaml.safe_load`: `None`, booleans,
integers, strings, lists, and (string-keyed, insertion-ordered) dicts. -/
inductive Value where
  | null : Value
  | bool : Bool → Value
  | int : Int → Value
  | str : String → Value
  | list : List Value → Value
  | dict : List (String × Value) → Value

/-- A Python dict with string keys, as an insertion-ordered association list
with unique keys (the script only ever builds dicts with distinct keys). -/
abbrev Row := List (String × Value)

/-- Python truthiness (`bool(v)`) for the modelled values. -/
def pyTruthy : Value → Bool
  | .null => false
  | .bool b => b
  | .int n => n != 0
  | .str s => !s.isEmpty
  | .list xs => !xs.isEmpty
  | .dict d => !d.isEmpty

/-- Python iteration (`for x in v`): strings iterate over their characters as
one-character strings, lists over their elements, dicts over their keys;
`None`, booleans and integers are not iterable (`TypeError`). -/
def pyIterate : Value → Option (List Value)
  | .str s => some (s.data.map (fun c => .str ⟨[c]⟩))
  | .list xs => some xs
  | .dict d => some (d.map (fun p => .str p.1))
  | _ => none

mutual
/-- Python `repr` of a value (models the builtin; quote-escaping inside
strings is not modelled — no claim depends on the repr of containers). -/
def pyRepr : Value → String
  | .null => "None"
  | .bool b => if b then "True" else "False"
  | .int n => toString n
  | .str s => "'" ++ s ++ "'"
  | .list xs => "[" ++ ", ".intercalate (pyReprList xs) ++ "]"
  | .dict d => "\x7b" ++ ", ".intercalate (pyReprDict d) ++ "\x7d"

/-- The reprs of the elements of a list value. -/
def pyReprList : List Value → List String
  | [] => []
  | v :: vs => pyRepr v :: pyReprList vs

/-- The "key: value" reprs of the entries of a dict value. -/
def pyReprDict : List (String × Value) → List String
  | [] => []
  | (k, v) :: ps => ("'" ++ k ++ "': " ++ pyRepr v) :: pyReprDict ps
end

/-- Python `str` of a value (models the builtin): identity on strings,
decimal form of integers, `None`/`True`/`False`, repr of containers. -/
def pyStr : Value → String
  | .str s => s
  | v => pyRepr v

/-- Test whether a value is a string. -/
def Value.isStr : Value → Bool
  | .str _ => true
  | _ => false

/-! ### Dict operations -/

/-- Does the dict have the key (`k in d`)? -/
def hasKey (d : Row) (k : String) : Bool :=
  d.any (fun p => p.1 == k)

/-- First value stored under a key, if any. -/
def lookupV (d : Row) (k : String) : Option Value :=
  (d.find? (fun p => p.1 == k)).map Prod.snd

/-- Python `d.get(k, dflt)` on an association-list dict. -/
def dgetD (d : Row) (k : String) (dflt : Value) : Value :=
  match d.find? (fun p => p.1 == k) with
  | some p => p.2
  | none => dflt

/-- Python `d[k] = v`: overwrite in place if the key exists (keeping its
position), otherwise append at the end (insertion order). -/
def dset (d : Row) (k : String) (v : Value) : Row :=
  if hasKey d k then d.map (fun p => if p.1 == k then (k, v) else p)
  else d ++ [(k, v)]

/-- Python `d.update(other)`: set every key/value pair of `other` in turn. -/
def dupdate (d other : Row) : Row :=
  other.foldl (fun acc p => dset acc p.1 p.2) d

/-- Python `d.get(k, dflt)` on an arbitrary value: an `AttributeError` unless
the value is a dict. -/
def pyGetD (v : Value) (k : String) (dflt : Value) : Except String Value :=
  match v with
  | .dict d => .ok (dgetD d k dflt)
  | _ => .error "AttributeError: get"

/-! ### The separator `"; "` at character level -/

/-- The characters of the fixed separator `"; "`. -/
def sepChars : List Char := [';', ' ']

/-- Python `"; ".join`: concatenate the pieces with the separator between
consecutive pieces (empty input yields the empty string). -/
def joinSepChars : List (List Char) → List Char
  | [] => []
  | [x] => x
  | x :: xs => x ++ sepChars ++ joinSepChars xs

/-- Find the first occurrence of the separator: returns the part before it and
the part after it, or `none` when the separator does not occur. -/
def findSep : List Char → Option (List Char × List Char)
  | [] => none
  | c :: rest =>
    if sepChars.isPrefixOf (c :: rest) then some ([], (c :: rest).drop 2)
    else match findSep rest with
      | none => none
      | some (b, a) => some (c :: b, a)

/-- Python `"; " in s` for a character list. -/
def containsSep (s : List Char) : Bool :=
  (findSep s).isSome

theorem findSep_length {s b a : List Char} (h : findSep s = some (b, a)) :
    a.length < s.length := by
  induction s generalizing b a with
  | nil => simp [findSep] at h
  | cons c rest ih =>
    rw [findSep] at h
    split at h
    · simp only [Option.some.injEq, Prod.mk.injEq] at h
      rcases h with ⟨-, rfl⟩
      simp [List.length_drop]
      omega
    · revert h
      split
      · intro h; exact absurd h (by simp)
      · rename_i b' a' heq
        intro h
        simp only [Option.some.injEq, Prod.mk.injEq] at h
        rcases h with ⟨-, rfl⟩
        exact Nat.lt_succ_of_lt (ih heq)

/-- Fuel-driven worker for `splitSep`; `findSep` strictly shrinks the
remainder, so any fuel above the length of the input suffices. -/
def splitSepFuel : Nat → List Char → List (List Char)
  | 0, s => [s]
  | fuel + 1, s =>
    match findSep s with
    | none => [s]
    | some (b, a) => b :: splitSepFuel fuel a

/-- Python `s.split("; ")` for a character list: split at each occurrence of
the separator, left to right, non-overlapping. -/
def splitSep (s : List Char) : List (List Char) :=
  splitSepFuel (s.length + 1) s

theorem splitSepFuel_irrel {f1 f2 : Nat} {s : List Char}
    (h1 : s.length < f1) (h2 : s.length < f2) :
    splitSepFuel f1 s = splitSepFuel f2 s := by
  induction f1 generalizing f2 s with
  | zero => omega
  | succ f1 ih =>
    cases f2 with
    | zero => omega
    | succ f2 =>
      simp only [splitSepFuel]
      cases hf : findSep s with
      | none => rfl
      | some p =>
        obtain ⟨b, a⟩ := p
        have := findSep_length hf
        exact congrArg (b :: ·) (ih (by omega) (by omega))

/-- Unfolding equation for `splitSep`. -/
theorem splitSep_eq (s : List Char) :
    splitSep s = match findSep s with
      | none => [s]
      | some (b, a) => b :: splitSep a := by
  cases hf : findSep s with
  | none =>
    show splitSepFuel (s.length + 1) s = [s]
    simp [splitSepFuel, hf]
  | some p =>
    obtain ⟨b, a⟩ := p
    show splitSepFuel (s.length + 1) s = b :: splitSepFuel (a.length + 1) a
    have hl := findSep_length hf
    have hstep : splitSepFuel (s.length + 1) s =
        match findSep s with
        | none => [s]
        | some (b, a) => b :: splitSepFuel s.length a := rfl
    rw [hstep, hf]
    exact congrArg (b :: ·) (splitSepFuel_irrel (by omega) (by omega))

/-! ### Code-point lexicographic string order (Python's string comparison) -/

/-- Lexicographic `≤` on character lists by code point. -/
def lexLe : List Char → List Char → Bool
  | [], _ => true
  | _ :: _, [] => false
  | a :: as, b :: bs =>
    if a.toNat < b.toNat then true
    else if b.toNat < a.toNat then false
    else lexLe as bs

/-- Lexicographic `<` on character lists by code point. -/
def lexLt : List Char → List Char → Bool
  | [], [] => false
  | [], _ :: _ => true
  | _ :: _, [] => false
  | a :: as, b :: bs =>
    if a.toNat < b.toNat then true
    else if b.toNat < a.toNat then false
    else lexLt as bs

/-- Python `a <= b` on strings (code-point lexicographic). -/
def strLeB (a b : String) : Bool := lexLe a.data b.data

/-- Python `a < b` on strings (code-point lexicographic). -/
def strLtB (a b : String) : Bool := lexLt a.data b.data

/-- Python `s.endswith(suffix)`. -/
def strEndsWith (s suffix : String) : Bool := suffix.data.isSuffixOf s.data

/-- Python `sorted` on a list of strings (ascending code-point order; stable,
which is irrelevant on the duplicate-free inputs it receives here). -/
def sortStrings (l : List String) : List String :=
  List.insertionSort (fun a b => strLeB a b = true) l

/-! ### The functions of `scripts/export_games_to_csv.py` -/

/-- `flatten_list(items)`: converts a list to a semicolon-separated string.
Source lines 17–21: empty/falsy input yields `""`; otherwise the `str` forms
of the iterated elements are joined with `"; "`; a truthy non-iterable
raises `TypeError`. -/
def flatten_list (items : Value) : Except String String :=
  if pyTruthy items = false then .ok ""
  else match pyIterate items with
    | some vs => .ok ⟨joinSepChars (vs.map (fun v => (pyStr v).data))⟩
    | none => .error "TypeError: object is not iterable"

/-- `flatten_dict(d)`: converts a dictionary to a semicolon-separated
`key=value` string. Source lines 24–28 (defined but never called). -/
def flatten_dict (d : Value) : Except String String :=
  if pyTruthy d = false then .ok ""
  else match d with
    | .dict ps => .ok ⟨joinSepChars (ps.map (fun p => (p.1 ++ "=" ++ pyStr p.2).data))⟩
    | _ => .error "AttributeError: items"

/-- The fixed closed platform set of `extract_video_info` (source line 37). -/
def videoPlatforms : List String := ["youtube", "vimeo", "moddb", "indiedb"]

/-- Contiguous-substring test (Python `needle in haystack` on strings). -/
def isSubstrChars (needle : List Char) : List Char → Bool
  | [] => needle.isEmpty
  | c :: rest => needle.isPrefixOf (c :: rest) || isSubstrChars needle rest

/-- Python `k in v` for a string `k`: key test on dicts, substring test on
strings, element-equality test on lists (a string compares equal only to an
equal string); `TypeError` on `None`, booleans and integers, which are not
containers. -/
def pyContains (v : Value) (k : String) : Except String Bool :=
  match v with
  | .dict d => .ok (hasKey d k)
  | .str s => .ok (isSubstrChars k.data s.data)
  | .list xs => .ok (xs.any (fun x => match x with | .str s => s == k | _ => false))
  | _ => .error "TypeError: argument of type is not iterable"

/-- Python `v[k]` for a string key `k`: dict lookup (`KeyError` when the key
is absent); on strings, lists and every other value a string index raises
`TypeError` (their indices must be integers). -/
def pyIndex (v : Value) (k : String) : Except String Value :=
  match v with
  | .dict d =>
    match d.find? (fun p => p.1 == k) with
    | some p => .ok p.2
    | none => .error ("KeyError: " ++ k)
  | _ => .error "TypeError: indices must be integers"

/-- `extract_video_info(video_data)`, source lines 31–43: falsy input yields
the empty dict; otherwise, for each platform of the fixed set in order, the
column `video_<platform>` holds `str(video_data[platform])` when
`platform in video_data` and `""` otherwise. The source performs no type
check, so a truthy non-dict flows into the same loop: a platform-free string
or list yields four empty-string columns, a string or list containing a
platform raises `TypeError` at the indexing, and a truthy integer or boolean
raises `TypeError` at the `in` test. -/
def extract_video_info (video_data : Value) : Except String Row :=
  if pyTruthy video_data = false then .ok []
  else
    videoPlatforms.foldlM
      (fun result platform => do
        let present ← pyContains video_data platform
        if present then do
          let v ← pyIndex video_data platform
          pure (dset result ("video_" ++ platform) (.str (pyStr v)))
        else
          pure (dset result ("video_" ++ platform) (.str "")))
      []

/-- `process_game_data(game)`, source lines 46–75: eleven direct fields copied
with `game.get(field, '')`, six list fields flattened with `flatten_list`,
then the dict is updated with `extract_video_info(game.get('video', {}))`. -/
def process_game_data (game : Value) : Except String Row := do
  let processed : Row := []
  let processed := dset processed "name" (← pyGetD game "name" (.str ""))
  let processed := dset processed "type" (← pyGetD game "type" (.str ""))
  let processed := dset processed "status" (← pyGetD game "status" (.str ""))
  let processed := dset processed "development" (← pyGetD game "development" (.str ""))
  let processed := dset processed "content" (← pyGetD game "content" (.str ""))
  let processed := dset processed "repo" (← pyGetD game "repo" (.str ""))
  let processed := dset processed "url" (← pyGetD game "url" (.str ""))
  let processed := dset processed "feed" (← pyGetD game "feed" (.str ""))
  let processed := dset processed "info" (← pyGetD game "info" (.str ""))
  let processed := dset processed "added" (← pyGetD game "added" (.str ""))
  let processed := dset processed "updated" (← pyGetD game "updated" (.str ""))
  let processed := dset processed "originals" (.str (← flatten_list (← pyGetD game "originals" (.list []))))
  let processed := dset processed "langs" (.str (← flatten_list (← pyGetD game "langs" (.list []))))
  let processed := dset processed "frameworks" (.str (← flatten_list (← pyGetD game "frameworks" (.list []))))
  let processed := dset processed "licenses" (.str (← flatten_list (← pyGetD game "licenses" (.list []))))
  let processed := dset processed "images" (.str (← flatten_list (← pyGetD game "images" (.list []))))
  let processed := dset processed "multiplayer" (.str (← flatten_list (← pyGetD game "multiplayer" (.list []))))
  let video_info ← extract_video_info (← pyGetD game "video" (.dict []))
  return dupdate processed video_info

/-- The fixed canonical column order of `get_all_field_names`
(source lines 87–93). -/
def ordered_fields : List String :=
  ["name", "type", "status", "development", "content",
   "originals", "repo", "url", "feed", "info",
   "langs", "frameworks", "licenses", "multiplayer",
   "images", "video_youtube", "video_vimeo", "video_moddb", "video_indiedb",
   "added", "updated"]

/-- `get_all_field_names(games_data)`, source lines 78–97: union of the key
sets of every record's projection, then the canonical prefix followed by the
remaining keys sorted ascending. -/
def get_all_field_names (games_data : List Value) : Except String (List String) := do
  let keyss ← games_data.mapM (fun game => (process_game_data game).map (fun r => r.map Prod.fst))
  let field_names := keyss.flatten.dedup
  let additional_fields := sortStrings (field_names.filter (fun k => !ordered_fields.contains k))
  return ordered_fields ++ additional_fields

/-- The per-file step of the loader (body of the `for` loop, source
lines 107–116): log the `Processing` line; on a parse failure log the error
(file name plus cause) and skip the file; on success extend the accumulated
games with the parsed items when the parse result is truthy (the `extend` of
a truthy non-iterable raises inside the same `try`, so it is also caught,
logged and skipped). -/
def processFile (acc : List Value × List String) (file : String × Except String Value) :
    List Value × List String :=
  let log := acc.2 ++ ["Processing " ++ file.1 ++ "..."]
  match file.2 with
  | .error e => (acc.1, log ++ ["Error processing " ++ file.1 ++ ": " ++ e])
  | .ok games =>
    if pyTruthy games then
      match pyIterate games with
      | some items => (acc.1 ++ items, log)
      | none => (acc.1, log ++ ["Error processing " ++ file.1 ++ ": TypeError: object is not iterable"])
    else (acc.1, log)

/-- `sorted(games_dir.glob("*.yaml"))` (source line 105): the `.yaml` files of
the directory in ascending lexical filename order. A directory listing is
given as a list of (filename, parse outcome) pairs; the parse outcome models
what `yaml.safe_load` would return for that file's contents. -/
def sorted_yaml_files (files : List (String × Except String Value)) :
    List (String × Except String Value) :=
  List.insertionSort (fun a b => strLeB a.1 b.1 = true)
    (files.filter (fun f => strEndsWith f.1 ".yaml"))

/-- `load_games_from_yaml_files(games_dir)`, source lines 100–118: fold the
per-file step over the sorted `.yaml` files, returning the concatenated games
and the printed log. -/
def load_games_from_yaml_files (files : List (String × Except String Value)) :
    List Value × List String :=
  (sorted_yaml_files files).foldl processFile ([], [])

/-! ### The CSV writer (external collaborator `csv.DictWriter`) -/

/-- Rendering of one cell by `csv.writer`: `None` (both the default `restval`
for a missing key and a stored `None` value) is written as the empty string,
anything else as its `str` form. -/
def csvCell : Option Value → String
  | none => ""
  | some .null => ""
  | some v => pyStr v

/-- `csv.DictWriter._dict_to_list` with the default `extrasaction='raise'`
and `restval=None`: a key outside the field names raises `ValueError`;
otherwise each field name is looked up in the row, missing keys yielding the
`restval`. -/
def dict_to_list (fieldnames : List String) (rowdict : Row) :
    Except String (List (Option Value)) :=
  if rowdict.any (fun p => !(fieldnames.contains p.1)) then
    .error "ValueError: dict contains fields not in fieldnames"
  else .ok (fieldnames.map (fun k => lookupV rowdict k))

/-- The written CSV file: header and fully rendered data rows. -/
structure CsvFile where
  header : List String
  rows : List (List String)
  deriving DecidableEq

/-- Outcome of `export_to_csv`: the empty-input early return, an exception
before the output file is opened, an exception after it is opened (which
would leave a partial file), or success. -/
inductive ExportOutcome where
  | skipped (msg : String)
  | earlyError (e : String)
  | midwriteError (e : String)
  | success (file : CsvFile) (msgs : List String)

/-- `export_to_csv(games_data, output_file)`, source lines 121–140: early
return on falsy input; `get_all_field_names` and the projection of every game
run before the output file is opened, so an exception there leaves no file;
the writing of the rows happens after the header is written. -/
def export_to_csv (games_data : List Value) : ExportOutcome :=
  if pyTruthy (.list games_data) = false then .skipped "No games data to export."
  else
    match get_all_field_names games_data with
    | .error e => .earlyError e
    | .ok field_names =>
      match games_data.mapM process_game_data with
      | .error e => .earlyError e
      | .ok processed_games =>
        match processed_games.mapM
            (fun r => (dict_to_list field_names r).map (fun cs => cs.map csvCell)) with
        | .error e => .midwriteError e
        | .ok rows =>
          .success ⟨field_names, rows⟩
            ["Exported " ++ toString processed_games.length ++ " games to games_export.csv",
             "Fields: " ++ ", ".intercalate field_names]

/-- State of the output file when the process ends. -/
inductive OutFile where
  | noFile
  | incompleteFile
  | file (f : CsvFile)
  deriving DecidableEq

/-- Result of a run of `main`: process exit code, state of the output file,
and the printed diagnostics. -/
structure MainResult where
  exitCode : Nat
  outFile : OutFile
  stdout : List String

/-- `main()`, source lines 143–169: exit 1 when the games directory is
missing; load; exit 1 when no games were loaded; otherwise export. An
uncaught exception during the export terminates the process with a nonzero
status (modelled as exit code 1 with the exception text). -/
def main (gamesDirExists : Bool) (files : List (String × Except String Value)) : MainResult :=
  if gamesDirExists = false then
    ⟨1, .noFile, ["Games directory not found: games"]⟩
  else
    let loaded := load_games_from_yaml_files files
    let games_data := loaded.1
    let out0 := ["Loading games from YAML files..."] ++ loaded.2
    if pyTruthy (.list games_data) = false then
      ⟨1, .noFile, out0 ++ ["No games found in YAML files."]⟩
    else
      let out1 := out0 ++ ["Loaded " ++ toString games_data.length ++ " games from YAML files.",
                           "Exporting to CSV..."]
      match export_to_csv games_data with
      | .skipped m => ⟨0, .noFile, out1 ++ [m, "Export complete! CSV file saved to: games_export.csv"]⟩
      | .earlyError e => ⟨1, .noFile, out1 ++ [e]⟩
      | .midwriteError e => ⟨1, .incompleteFile, out1 ++ [e]⟩
      | .success f msgs =>
        ⟨0, .file f, out1 ++ msgs ++ ["Export complete! CSV file saved to: games_export.csv"]⟩

/-! ### Helper lemmas: the separator search -/

theorem findSep_cons_none {c : Char} {x : List Char} (h : findSep (c :: x) = none) :
    sepChars.isPrefixOf (c :: x) = false ∧ findSep x = none := by
  rw [findSep] at h
  split at h
  · exact absurd h (by simp)
  · rename_i hp
    refine ⟨eq_false_of_ne_true hp, ?_⟩
    cases hfx : findSep x with
    | none => rfl
    | some p =>
      obtain ⟨b, a⟩ := p
      rw [hfx] at h
      simp at h

theorem findSep_append {x : List Char} (hx : findSep x = none) (r : List Char) :
    findSep (x ++ sepChars ++ r) = some (x, r) := by
  induction x with
  | nil =>
    show findSep (';' :: ' ' :: r) = some ([], r)
    rw [findSep]
    simp [sepChars, List.isPrefixOf]
  | cons c x ih =>
    obtain ⟨hp, hx'⟩ := findSep_cons_none hx
    have hr := ih hx'
    show findSep (c :: (x ++ sepChars ++ r)) = some (c :: x, r)
    rw [findSep]
    have hnp : sepChars.isPrefixOf (c :: (x ++ sepChars ++ r)) = false := by
      cases x with
      | nil =>
        show ((';' == c) && ((' ' == ';') && List.isPrefixOf [] r)) = false
        simp [List.isPrefixOf]
      | cons d x' =>
        show ((';' == c) && ((' ' == d) && List.isPrefixOf [] (x' ++ sepChars ++ r))) = false
        have heq : sepChars.isPrefixOf (c :: d :: x') =
            ((';' == c) && ((' ' == d) && List.isPrefixOf [] x')) := rfl
        rw [heq] at hp
        simp only [List.isPrefixOf] at hp ⊢
        simpa using hp
    rw [hnp]
    simp only [Bool.false_eq_true, if_false]
    rw [hr]

theorem splitSep_joinSep {items : List (List Char)} (hne : items ≠ [])
    (h : ∀ x ∈ items, findSep x = none) :
    splitSep (joinSepChars items) = items := by
  induction items with
  | nil => cases hne rfl
  | cons x xs ih =>
    cases xs with
    | nil =>
      show splitSep x = [x]
      rw [splitSep_eq, h x (by simp)]
    | cons y ys =>
      show splitSep (x ++ sepChars ++ joinSepChars (y :: ys)) = x :: y :: ys
      rw [splitSep_eq, findSep_append (h x (by simp)) (joinSepChars (y :: ys))]
      exact congrArg (x :: ·) (ih (by simp) (fun z hz => h z (by simp [hz])))

/-! ### Helper lemmas: dict building -/

theorem hasKey_nil (k : String) : hasKey [] k = false := rfl

theorem hasKey_cons (k' : String) (v : Value) (d : Row) (k : String) :
    hasKey ((k', v) :: d) k = (k' == k || hasKey d k) := by
  simp [hasKey]

theorem dset_fresh {d : Row} {k : String} (v : Value) (h : hasKey d k = false) :
    dset d k v = d ++ [(k, v)] := by
  simp [dset, h]

theorem dupdate_nil (d : Row) : dupdate d [] = d := rfl

/-- The string stored for one platform by `extract_video_info` on a mapping
input. -/
def videoValue (d : Row) (platform : String) : String :=
  if hasKey d platform then pyStr (dgetD d platform .null) else ""

/-- Reduction of a monadic bind on a succeeding `Except` computation. -/
theorem bindE_ok {α β : Type} (a : α) (f : α → Except String β) :
    (Except.ok a >>= f) = f a := rfl

/-- Reduction of a monadic bind on a failing `Except` computation. -/
theorem bindE_error {α β : Type} (e : String) (f : α → Except String β) :
    ((Except.error e : Except String α) >>= f) = .error e := rfl

/-! ### Helper lemmas: the video extractor -/

theorem pyIndex_of_hasKey {d : Row} {k : String} (h : hasKey d k = true) :
    pyIndex (.dict d) k = .ok (dgetD d k .null) := by
  have hstep : pyIndex (.dict d) k =
      (match d.find? (fun p => p.1 == k) with
       | some p => .ok p.2
       | none => .error ("KeyError: " ++ k)) := rfl
  have hstep2 : dgetD d k .null =
      (match d.find? (fun p => p.1 == k) with
       | some p => p.2
       | none => .null) := rfl
  rw [hstep, hstep2]
  cases hf : d.find? (fun p => p.1 == k) with
  | some p => rfl
  | none =>
    exfalso
    rw [List.find?_eq_none] at hf
    unfold hasKey at h
    rw [List.any_eq_true] at h
    obtain ⟨p, hp, hpe⟩ := h
    exact hf p hp hpe

theorem extract_stepM (result d : Row) (platform : String) :
    (do
      let present ← pyContains (.dict d) platform
      if present then do
        let v ← pyIndex (.dict d) platform
        pure (dset result ("video_" ++ platform) (.str (pyStr v)))
      else
        pure (dset result ("video_" ++ platform) (.str ""))
      : Except String Row) =
    .ok (dset result ("video_" ++ platform) (.str (videoValue d platform))) := by
  unfold videoValue
  have hc : pyContains (.dict d) platform = .ok (hasKey d platform) := rfl
  simp only [hc, bindE_ok]
  by_cases h : hasKey d platform = true
  · simp [h, pyIndex_of_hasKey h, bindE_ok]
  · have hfalse : hasKey d platform = false := by
      rw [Bool.eq_false_iff]; exact h
    rw [if_neg (by simp [hfalse])]
    rw [if_neg h]
    rfl

theorem extract_stepM_err_true (result : Row) (v : Value) (platform : String)
    (hc : pyContains v platform = .ok true)
    (hi : pyIndex v platform = .error "TypeError: indices must be integers") :
    (do
      let present ← pyContains v platform
      if present then do
        let vv ← pyIndex v platform
        pure (dset result ("video_" ++ platform) (.str (pyStr vv)))
      else
        pure (dset result ("video_" ++ platform) (.str ""))
      : Except String Row) =
    .error "TypeError: indices must be integers" := by
  simp only [hc, bindE_ok]
  simp [hi, bindE_error]

theorem extract_stepM_err_false (result : Row) (v : Value) (platform : String)
    (hc : pyContains v platform = .ok false) :
    (do
      let present ← pyContains v platform
      if present then do
        let vv ← pyIndex v platform
        pure (dset result ("video_" ++ platform) (.str (pyStr vv)))
      else
        pure (dset result ("video_" ++ platform) (.str ""))
      : Except String Row) =
    .ok (dset result ("video_" ++ platform) (.str "")) := by
  simp only [hc, bindE_ok]
  rw [if_neg (by simp)]
  rfl

/-- On a non-empty mapping, `extract_video_info` succeeds with exactly the
four video columns in platform order. -/
theorem extract_video_info_dict {d : Row} (hd : d ≠ []) :
    extract_video_info (.dict d) =
      .ok [("video_youtube", .str (videoValue d "youtube")),
           ("video_vimeo", .str (videoValue d "vimeo")),
           ("video_moddb", .str (videoValue d "moddb")),
           ("video_indiedb", .str (videoValue d "indiedb"))] := by
  have ht : pyTruthy (.dict d) = true := by
    cases d with
    | nil => cases hd rfl
    | cons p d => simp [pyTruthy]
  unfold extract_video_info
  rw [ht]
  simp only [Bool.true_eq_false, if_false, videoPlatforms, List.foldlM_cons,
    List.foldlM_nil, extract_stepM, bindE_ok]
  rw [dset_fresh _ (hasKey_nil _),
      dset_fresh _ (by simp [hasKey, dset]),
      dset_fresh _ (by simp [hasKey, dset]),
      dset_fresh _ (by simp [hasKey, dset])]
  rfl

/-- On a truthy string or list, the extractor scans the four platforms with
the membership test: if none is contained it succeeds with four empty-string
video columns, and the successful results can have no other shape. -/
theorem extract_container_shape {w : Value} {E : Row}
    (ht : pyTruthy w = true)
    (hb : ∀ platform, ∃ b, pyContains w platform = .ok b)
    (hi : ∀ platform,
      pyIndex w platform = .error "TypeError: indices must be integers")
    (h : extract_video_info w = .ok E) :
    E = [("video_youtube", .str ""), ("video_vimeo", .str ""),
         ("video_moddb", .str ""), ("video_indiedb", .str "")] := by
  unfold extract_video_info at h
  rw [ht] at h
  simp only [Bool.true_eq_false, if_false, videoPlatforms, List.foldlM_cons,
    List.foldlM_nil] at h
  obtain ⟨b1, hb1⟩ := hb "youtube"
  cases b1 with
  | true =>
    rw [extract_stepM_err_true _ w _ hb1 (hi "youtube"), bindE_error] at h
    cases h
  | false =>
  rw [extract_stepM_err_false _ w _ hb1] at h
  simp only [bindE_ok] at h
  obtain ⟨b2, hb2⟩ := hb "vimeo"
  cases b2 with
  | true =>
    rw [extract_stepM_err_true _ w _ hb2 (hi "vimeo"), bindE_error] at h
    cases h
  | false =>
  rw [extract_stepM_err_false _ w _ hb2] at h
  simp only [bindE_ok] at h
  obtain ⟨b3, hb3⟩ := hb "moddb"
  cases b3 with
  | true =>
    rw [extract_stepM_err_true _ w _ hb3 (hi "moddb"), bindE_error] at h
    cases h
  | false =>
  rw [extract_stepM_err_false _ w _ hb3] at h
  simp only [bindE_ok] at h
  obtain ⟨b4, hb4⟩ := hb "indiedb"
  cases b4 with
  | true =>
    rw [extract_stepM_err_true _ w _ hb4 (hi "indiedb"), bindE_error] at h
    cases h
  | false =>
  rw [extract_stepM_err_false _ w _ hb4] at h
  simp only [bindE_ok] at h
  cases h
  rfl

/-- Every successful result of the extractor is the empty dict or exactly the
four video columns holding strings. -/
theorem extract_ok_shape {w : Value} {E : Row}
    (h : extract_video_info w = .ok E) :
    E = [] ∨ ∃ a b c e : String,
      E = [("video_youtube", .str a), ("video_vimeo", .str b),
           ("video_moddb", .str c), ("video_indiedb", .str e)] := by
  by_cases ht : pyTruthy w = false
  · left
    unfold extract_video_info at h
    rw [ht] at h
    simp at h
    exact h
  · have ht2 : pyTruthy w = true := by
      revert ht; cases pyTruthy w <;> simp
    cases w with
    | dict d =>
      cases d with
      | nil => simp [pyTruthy] at ht2
      | cons p dd =>
        right
        rw [extract_video_info_dict (by simp)] at h
        cases h
        exact ⟨_, _, _, _, rfl⟩
    | str s =>
      right
      exact ⟨"", "", "", "",
        extract_container_shape ht2 (fun p => ⟨_, rfl⟩) (fun p => rfl) h⟩
    | list xs =>
      right
      exact ⟨"", "", "", "",
        extract_container_shape ht2 (fun p => ⟨_, rfl⟩) (fun p => rfl) h⟩
    | null => simp [pyTruthy] at ht2
    | bool b =>
      cases b with
      | false => simp [pyTruthy] at ht2
      | true =>
        rw [show extract_video_info (.bool true) =
          .error "TypeError: argument of type is not iterable" from rfl] at h
        cases h
    | int n =>
      exfalso
      unfold extract_video_info at h
      rw [ht2] at h
      simp only [Bool.true_eq_false, if_false, videoPlatforms,
        List.foldlM_cons] at h
      simp [pyContains, bindE_error] at h

theorem extract_ok_keys {w : Value} {E : Row}
    (h : extract_video_info w = .ok E) :
    E = [] ∨ E.map Prod.fst =
      ["video_youtube", "video_vimeo", "video_moddb", "video_indiedb"] := by
  rcases extract_ok_shape h with rfl | ⟨a, b, c, e, rfl⟩
  · left; rfl
  · right; rfl

theorem extract_values_str {w : Value} {E : Row}
    (h : extract_video_info w = .ok E) :
    ∀ p ∈ E, ∃ s, p.2 = .str s := by
  rcases extract_ok_shape h with rfl | ⟨a, b, c, e, rfl⟩
  · intro p hp; cases hp
  · intro p hp
    rcases (by simpa using hp) with rfl | rfl | rfl | rfl
    all_goals exact ⟨_, rfl⟩

/-! ### Helper lemmas: normal form of the projector on a mapping -/

/-- The first seventeen entries of a projected row, in insertion order:
the eleven direct fields then the six flattened list fields. -/
def row17 (g : Row) (o l fw lic im mp : String) : Row :=
  [("name", dgetD g "name" (.str "")),
   ("type", dgetD g "type" (.str "")),
   ("status", dgetD g "status" (.str "")),
   ("development", dgetD g "development" (.str "")),
   ("content", dgetD g "content" (.str "")),
   ("repo", dgetD g "repo" (.str "")),
   ("url", dgetD g "url" (.str "")),
   ("feed", dgetD g "feed" (.str "")),
   ("info", dgetD g "info" (.str "")),
   ("added", dgetD g "added" (.str "")),
   ("updated", dgetD g "updated" (.str "")),
   ("originals", .str o), ("langs", .str l), ("frameworks", .str fw),
   ("licenses", .str lic), ("images", .str im), ("multiplayer", .str mp)]

theorem build_row17 (g : Row) (o l fw lic im mp : String) :
    dset (dset (dset (dset (dset (dset (dset (dset (dset (dset (dset (dset (dset (dset (dset (dset (dset [] "name" (dgetD g "name" (.str ""))) "type" (dgetD g "type" (.str ""))) "status" (dgetD g "status" (.str ""))) "development" (dgetD g "development" (.str ""))) "content" (dgetD g "content" (.str ""))) "repo" (dgetD g "repo" (.str ""))) "url" (dgetD g "url" (.str ""))) "feed" (dgetD g "feed" (.str ""))) "info" (dgetD g "info" (.str ""))) "added" (dgetD g "added" (.str ""))) "updated" (dgetD g "updated" (.str ""))) "originals" (Value.str o)) "langs" (Value.str l)) "frameworks" (Value.str fw)) "licenses" (Value.str lic)) "images" (Value.str im)) "multiplayer" (Value.str mp) = row17 g o l fw lic im mp := by
  rw [dset_fresh _ (hasKey_nil _)]
  rw [dset_fresh _ (by simp [hasKey, dset])]
  rw [dset_fresh _ (by simp [hasKey, dset])]
  rw [dset_fresh _ (by simp [hasKey, dset])]
  rw [dset_fresh _ (by simp [hasKey, dset])]
  rw [dset_fresh _ (by simp [hasKey, dset])]
  rw [dset_fresh _ (by simp [hasKey, dset])]
  rw [dset_fresh _ (by simp [hasKey, dset])]
  rw [dset_fresh _ (by simp [hasKey, dset])]
  rw [dset_fresh _ (by simp [hasKey, dset])]
  rw [dset_fresh _ (by simp [hasKey, dset])]
  rw [dset_fresh _ (by simp [hasKey, dset])]
  rw [dset_fresh _ (by simp [hasKey, dset])]
  rw [dset_fresh _ (by simp [hasKey, dset])]
  rw [dset_fresh _ (by simp [hasKey, dset])]
  rw [dset_fresh _ (by simp [hasKey, dset])]
  rw [dset_fresh _ (by simp [hasKey, dset])]
  rfl

set_option maxHeartbeats 1600000 in
theorem process_game_data_dict (g : Row) :
    process_game_data (.dict g) =
      match flatten_list (dgetD g "originals" (.list [])) with
      | .error e => .error e
      | .ok o =>
        match flatten_list (dgetD g "langs" (.list [])) with
        | .error e => .error e
        | .ok l =>
          match flatten_list (dgetD g "frameworks" (.list [])) with
          | .error e => .error e
          | .ok fw =>
            match flatten_list (dgetD g "licenses" (.list [])) with
            | .error e => .error e
            | .ok lic =>
              match flatten_list (dgetD g "images" (.list [])) with
              | .error e => .error e
              | .ok im =>
                match flatten_list (dgetD g "multiplayer" (.list [])) with
                | .error e => .error e
                | .ok mp =>
                  match extract_video_info (dgetD g "video" (.dict [])) with
                  | .error e => .error e
                  | .ok video_info =>
                    .ok (dupdate (row17 g o l fw lic im mp) video_info) := by
  simp only [process_game_data, pyGetD, bindE_ok]
  cases flatten_list (dgetD g "originals" (.list [])) with
  | error e => rfl
  | ok o =>
    simp only [bindE_ok]
    cases flatten_list (dgetD g "langs" (.list [])) with
    | error e => rfl
    | ok l =>
      simp only [bindE_ok]
      cases flatten_list (dgetD g "frameworks" (.list [])) with
      | error e => rfl
      | ok fw =>
        simp only [bindE_ok]
        cases flatten_list (dgetD g "licenses" (.list [])) with
        | error e => rfl
        | ok lic =>
          simp only [bindE_ok]
          cases flatten_list (dgetD g "images" (.list [])) with
          | error e => rfl
          | ok im =>
            simp only [bindE_ok]
            cases flatten_list (dgetD g "multiplayer" (.list [])) with
            | error e => rfl
            | ok mp =>
              simp only [bindE_ok]
              cases extract_video_info (dgetD g "video" (.dict [])) with
              | error e => rfl
              | ok video_info =>
                simp only [bindE_ok]
                rw [build_row17 g o l fw lic im mp]
                rfl

/-! ### Helper lemmas: row structure of the projector -/

theorem hasKey_append (d1 d2 : Row) (k : String) :
    hasKey (d1 ++ d2) k = (hasKey d1 k || hasKey d2 k) := by
  simp [hasKey, List.any_append]

theorem dupdate_append_of_fresh :
    ∀ {other d : Row}, (∀ p ∈ other, hasKey d p.1 = false) →
      (other.map Prod.fst).Nodup → dupdate d other = d ++ other := by
  intro other
  induction other with
  | nil => intro d _ _; simp [dupdate_nil]
  | cons p rest ih =>
    intro d hfresh hnodup
    obtain ⟨k, v⟩ := p
    simp only [List.map_cons, List.nodup_cons] at hnodup
    obtain ⟨hk_notin, hrest_nodup⟩ := hnodup
    have h1 : dupdate d ((k, v) :: rest) = dupdate (dset d k v) rest := rfl
    rw [h1, dset_fresh v (hfresh (k, v) (by simp))]
    rw [ih ?_ hrest_nodup]
    · simp
    · intro q hq
      rw [hasKey_append]
      have h2 : hasKey d q.1 = false := hfresh q (List.mem_cons_of_mem _ hq)
      have h3 : (k == q.1) = false := by
        rw [beq_eq_false_iff_ne]
        intro hkq
        exact hk_notin (hkq ▸ List.mem_map_of_mem Prod.fst hq)
      rw [h2, hasKey_cons, hasKey_nil, h3]
      rfl

/-- The seventeen always-present projected keys, in insertion order. -/
def projKeys17 : List String :=
  ["name", "type", "status", "development", "content", "repo", "url", "feed",
   "info", "added", "updated", "originals", "langs", "frameworks", "licenses",
   "images", "multiplayer"]

theorem row17_keys (g : Row) (o l fw lic im mp : String) :
    (row17 g o l fw lic im mp).map Prod.fst = projKeys17 := rfl

/-- Every successful projection of a mapping record decomposes as the
seventeen base entries followed by the (successfully extracted) video
entries. -/
theorem process_row_structure {g row : Row}
    (h : process_game_data (.dict g) = .ok row) :
    ∃ (o l fw lic im mp : String) (E : Row),
      flatten_list (dgetD g "originals" (.list [])) = .ok o ∧
      flatten_list (dgetD g "langs" (.list [])) = .ok l ∧
      flatten_list (dgetD g "frameworks" (.list [])) = .ok fw ∧
      flatten_list (dgetD g "licenses" (.list [])) = .ok lic ∧
      flatten_list (dgetD g "images" (.list [])) = .ok im ∧
      flatten_list (dgetD g "multiplayer" (.list [])) = .ok mp ∧
      extract_video_info (dgetD g "video" (.dict [])) = .ok E ∧
      row = row17 g o l fw lic im mp ++ E := by
  rw [process_game_data_dict] at h
  cases ho : flatten_list (dgetD g "originals" (.list [])) with
  | error e => rw [ho] at h; cases h
  | ok o =>
  rw [ho] at h
  cases hl : flatten_list (dgetD g "langs" (.list [])) with
  | error e => rw [hl] at h; cases h
  | ok l =>
  rw [hl] at h
  cases hfw : flatten_list (dgetD g "frameworks" (.list [])) with
  | error e => rw [hfw] at h; cases h
  | ok fw =>
  rw [hfw] at h
  cases hlic : flatten_list (dgetD g "licenses" (.list [])) with
  | error e => rw [hlic] at h; cases h
  | ok lic =>
  rw [hlic] at h
  cases him : flatten_list (dgetD g "images" (.list [])) with
  | error e => rw [him] at h; cases h
  | ok im =>
  rw [him] at h
  cases hmp : flatten_list (dgetD g "multiplayer" (.list [])) with
  | error e => rw [hmp] at h; cases h
  | ok mp =>
  rw [hmp] at h
  cases hvid : extract_video_info (dgetD g "video" (.dict [])) with
  | error e => rw [hvid] at h; cases h
  | ok E =>
  rw [hvid] at h
  refine ⟨o, l, fw, lic, im, mp, E, rfl, rfl, rfl, rfl, rfl, rfl, rfl, ?_⟩
  have hrow : row = dupdate (row17 g o l fw lic im mp) E := by
    cases h; rfl
  rw [hrow]
  rcases extract_ok_keys hvid with rfl | hEk
  · rw [dupdate_nil, List.append_nil]
  · apply dupdate_append_of_fresh
    · intro p hp
      have hpk : p.1 ∈ E.map Prod.fst := List.mem_map_of_mem Prod.fst hp
      rw [hEk] at hpk
      simp only [List.mem_cons, List.not_mem_nil, or_false] at hpk
      rcases hpk with h1 | h1 | h1 | h1 <;> rw [h1] <;> simp [row17, hasKey]
    · rw [hEk]; decide

/-! ### Helper lemmas: `mapM` in the `Except` monad -/

theorem mapM_ok_cons {α β : Type} {f : α → Except String β} {a : α} {l : List α}
    {r : List β} (h : (a :: l).mapM f = .ok r) :
    ∃ b bs, f a = .ok b ∧ l.mapM f = .ok bs ∧ r = b :: bs := by
  rw [List.mapM_cons] at h
  cases hfa : f a with
  | error e => rw [hfa, bindE_error] at h; cases h
  | ok b =>
    rw [hfa, bindE_ok] at h
    cases hml : l.mapM f with
    | error e => rw [hml, bindE_error] at h; cases h
    | ok bs =>
      rw [hml, bindE_ok] at h
      refine ⟨b, bs, rfl, rfl, ?_⟩
      cases h
      rfl

theorem mapM_ok_length {α β : Type} {f : α → Except String β} :
    ∀ {l : List α} {r : List β}, l.mapM f = .ok r → r.length = l.length := by
  intro l
  induction l with
  | nil => intro r h; rw [List.mapM_nil] at h; cases h; rfl
  | cons a l ih =>
    intro r h
    obtain ⟨b, bs, -, hml, rfl⟩ := mapM_ok_cons h
    simp [ih hml]

theorem mapM_ok_getElem {α β : Type} {f : α → Except String β} :
    ∀ {l : List α} {r : List β}, l.mapM f = .ok r →
      ∀ i (hi : i < l.length) (hi2 : i < r.length), f l[i] = .ok r[i] := by
  intro l
  induction l with
  | nil => intro r _ i hi; cases (Nat.not_lt_zero i) hi
  | cons a l ih =>
    intro r h i hi hi2
    obtain ⟨b, bs, hfa, hml, rfl⟩ := mapM_ok_cons h
    cases i with
    | zero => simpa using hfa
    | succ j =>
      have hj : j < l.length := by simpa using hi
      have hj2 : j < bs.length := by simpa using hi2
      simpa using ih hml j hj hj2

theorem mapM_ok_mem {α β : Type} {f : α → Except String β} :
    ∀ {l : List α} {r : List β}, l.mapM f = .ok r →
      ∀ a ∈ l, ∃ b ∈ r, f a = .ok b := by
  intro l
  induction l with
  | nil => intro r _ a ha; cases ha
  | cons x l ih =>
    intro r h a ha
    obtain ⟨b, bs, hfx, hml, rfl⟩ := mapM_ok_cons h
    rcases List.mem_cons.mp ha with rfl | ha2
    · exact ⟨b, by simp, hfx⟩
    · obtain ⟨b2, hb2, hfb2⟩ := ih hml a ha2
      exact ⟨b2, by simp [hb2], hfb2⟩

theorem mapM_all_ok {α β : Type} {f : α → Except String β} :
    ∀ {l : List α}, (∀ a ∈ l, ∃ b, f a = .ok b) → ∃ r, l.mapM f = .ok r := by
  intro l
  induction l with
  | nil => intro _; exact ⟨[], by rw [List.mapM_nil]; rfl⟩
  | cons a l ih =>
    intro h
    obtain ⟨b, hb⟩ := h a (by simp)
    obtain ⟨r, hr⟩ := ih (fun x hx => h x (by simp [hx]))
    refine ⟨b :: r, ?_⟩
    rw [List.mapM_cons, hb, bindE_ok, hr, bindE_ok]
    rfl

theorem mapM_map_ok {α β γ : Type} {f : α → Except String β} {h : β → γ} :
    ∀ {l : List α} {K : List γ},
      l.mapM (fun a => (f a).map h) = .ok K →
      ∃ P, l.mapM f = .ok P ∧ K = P.map h := by
  intro l
  induction l with
  | nil =>
    intro K hK
    rw [List.mapM_nil] at hK
    cases hK
    exact ⟨[], by rw [List.mapM_nil]; rfl, rfl⟩
  | cons a l ih =>
    intro K hK
    obtain ⟨b0, bs, hfa, hml, rfl⟩ := mapM_ok_cons hK
    obtain ⟨P, hP, rfl⟩ := ih hml
    cases hfa2 : f a with
    | error e => rw [hfa2] at hfa; cases hfa
    | ok b =>
      rw [hfa2] at hfa
      have hb0 : b0 = h b := by cases hfa; rfl
      refine ⟨b :: P, ?_, by simp [hb0]⟩
      rw [List.mapM_cons, hfa2, bindE_ok, hP, bindE_ok]
      rfl

/-! ### Helper lemmas: projector domain and key subset -/

theorem process_ok_dict {v : Value} {row : Row}
    (h : process_game_data v = .ok row) : ∃ g, v = .dict g := by
  cases v with
  | dict g => exact ⟨g, rfl⟩
  | null => rw [show process_game_data .null = .error "AttributeError: get" from rfl] at h; cases h
  | bool b => rw [show process_game_data (.bool b) = .error "AttributeError: get" from rfl] at h; cases h
  | int n => rw [show process_game_data (.int n) = .error "AttributeError: get" from rfl] at h; cases h
  | str s => rw [show process_game_data (.str s) = .error "AttributeError: get" from rfl] at h; cases h
  | list xs => rw [show process_game_data (.list xs) = .error "AttributeError: get" from rfl] at h; cases h

theorem process_keys_sub {v : Value} {row : Row}
    (h : process_game_data v = .ok row) :
    ∀ k ∈ row.map Prod.fst, k ∈ ordered_fields := by
  obtain ⟨g, rfl⟩ := process_ok_dict h
  obtain ⟨o, l, fw, lic, im, mp, E, -, -, -, -, -, -, hvid, hrow⟩ :=
    process_row_structure h
  subst hrow
  intro k hk
  rw [List.map_append, row17_keys] at hk
  rcases List.mem_append.mp hk with h1 | h1
  · have hsub : ∀ x ∈ projKeys17, x ∈ ordered_fields := by decide
    exact hsub k h1
  · rcases extract_ok_keys hvid with rfl | hEk
    · cases h1
    · rw [hEk] at h1
      have hsub : ∀ x ∈ ["video_youtube", "video_vimeo", "video_moddb", "video_indiedb"],
          x ∈ ordered_fields := by decide
      exact hsub k h1

/-! ### Claim C8 -/

/-- C8: `flatten_list` of the empty sequence is the empty string; for every
non-empty sequence of items none of whose string forms contains the
separator `"; "`, it returns the string forms joined by `"; "`, and splitting
that result on `"; "` yields exactly as many pieces as there were items
(indeed the pieces themselves round-trip). -/
theorem c8_flatten_list_join_split_roundtrip :
    flatten_list (Value.list []) = .ok "" ∧
    ∀ items : List Value, items ≠ [] →
      (∀ v ∈ items, containsSep (pyStr v).data = false) →
      flatten_list (Value.list items) =
        .ok ⟨joinSepChars (items.map (fun v => (pyStr v).data))⟩ ∧
      splitSep (joinSepChars (items.map (fun v => (pyStr v).data))) =
        items.map (fun v => (pyStr v).data) ∧
      (splitSep (joinSepChars (items.map (fun v => (pyStr v).data)))).length =
        items.length := by
  refine ⟨rfl, ?_⟩
  intro items hne hsep
  have hsplit : splitSep (joinSepChars (items.map (fun v => (pyStr v).data))) =
      items.map (fun v => (pyStr v).data) := by
    apply splitSep_joinSep
    · simpa using hne
    · intro x hx
      obtain ⟨v, hv, rfl⟩ := List.mem_map.mp hx
      have := hsep v hv
      rw [containsSep] at this
      exact Option.not_isSome_iff_eq_none.mp (by simp [this])
  refine ⟨?_, hsplit, by rw [hsplit]; simp⟩
  unfold flatten_list
  have ht : pyTruthy (Value.list items) = true := by
    cases items with
    | nil => cases hne rfl
    | cons a l => simp [pyTruthy]
  rw [ht]
  rfl

/-- Witness for C8 at the concrete input `["en", "fr"]`. -/
theorem c8_witness :
    flatten_list (Value.list [Value.str "en", Value.str "fr"]) = .ok "en; fr" ∧
    splitSep ("en; fr".data) = ["en".data, "fr".data] ∧
    (splitSep ("en; fr".data)).length = 2 := by
  have h := c8_flatten_list_join_split_roundtrip.2
    [Value.str "en", Value.str "fr"] (by simp)
    (by intro v hv
        rcases (by simpa using hv : v = Value.str "en" ∨ v = Value.str "fr") with rfl | rfl <;> rfl)
  exact ⟨h.1, h.2.1, h.2.2⟩

/-! ### Claim C10 -/

/-- C10: a sequence-shaped field holding a single string does not fail and is
not passed through unchanged (for any string of length at least two): for
every non-empty string `s`, `flatten_list` on `s` returns the individual
characters of `s` joined by `"; "`, and a record whose `langs` field is the
string `s` still projects successfully, its `langs` column holding that
character-joined string. -/
theorem c10_flatten_list_string (s : String) (hne : s ≠ "") :
    flatten_list (.str s) = .ok ⟨joinSepChars (s.data.map (fun c => [c]))⟩ ∧
    ∃ row, process_game_data (.dict [("langs", .str s)]) = .ok row ∧
      lookupV row "langs" =
        some (.str ⟨joinSepChars (s.data.map (fun c => [c]))⟩) := by
  have hJ : flatten_list (.str s) =
      .ok ⟨joinSepChars (s.data.map (fun c => [c]))⟩ := by
    unfold flatten_list
    have ht : pyTruthy (Value.str s) = true := by
      have hie : s.isEmpty = false := by
        rw [Bool.eq_false_iff]
        intro hv
        exact hne ((String.isEmpty_iff s).mp hv)
      simp [pyTruthy, hie]
    rw [ht]
    show Except.ok (⟨joinSepChars ((s.data.map (fun c => Value.str ⟨[c]⟩)).map
      (fun v => (pyStr v).data))⟩ : String) = _
    rw [List.map_map]
    rfl
  refine ⟨hJ, ?_⟩
  rw [process_game_data_dict]
  rw [show dgetD [("langs", Value.str s)] "langs" (Value.list []) = Value.str s from rfl]
  rw [hJ]
  exact ⟨_, rfl, rfl⟩

/-- Witness for C10 at the concrete input `"en"`. -/
theorem c10_witness :
    flatten_list (Value.str "en") = .ok "e; n" ∧
    ∃ row, process_game_data (.dict [("langs", Value.str "en")]) = .ok row ∧
      lookupV row "langs" = some (.str "e; n") := by
  have h := c10_flatten_list_string "en" (by decide)
  exact ⟨h.1, h.2⟩

/-! ### Claim C2 -/

/-- C2 counterexample: on the empty `video` mapping (all four recognized keys
absent) the extractor returns the empty dict — no `video_youtube` column with
the empty-string value exists, contradicting the claim for this mapping. -/
theorem c2_counterexample :
    extract_video_info (Value.dict []) = .ok [] ∧
    (extract_video_info (Value.dict [])).map
      (fun E => lookupV E "video_youtube") = .ok none ∧
    (extract_video_info (Value.dict [])).map
      (fun E => (E.map Prod.fst).contains "video_youtube") = .ok false :=
  ⟨rfl, rfl, rfl⟩

/-- C2 amended: for every non-empty `video` mapping, each recognized platform
present yields `video_<platform>` holding the stringified value, each
recognized platform absent yields `video_<platform>` holding the empty
string, and no key outside the four-platform set survives (the result's keys
are exactly the four video columns). -/
theorem c2_extract_video_info_nonempty (d : Row) (hd : d ≠ []) :
    ∃ E, extract_video_info (.dict d) = .ok E ∧
      E.map Prod.fst =
        ["video_youtube", "video_vimeo", "video_moddb", "video_indiedb"] ∧
      ∀ platform ∈ videoPlatforms,
        lookupV E ("video_" ++ platform) =
          some (.str (if hasKey d platform
                      then pyStr (dgetD d platform .null) else "")) := by
  refine ⟨_, extract_video_info_dict hd, rfl, ?_⟩
  intro platform hp
  rcases (by simpa [videoPlatforms] using hp :
      platform = "youtube" ∨ platform = "vimeo" ∨ platform = "moddb" ∨
      platform = "indiedb") with rfl | rfl | rfl | rfl <;> rfl

/-- Witness for C2 (amended) at the mapping with one recognized and one
unrecognized key. -/
theorem c2_witness :
    ∃ E, extract_video_info
        (.dict [("youtube", Value.str "u"), ("junk", Value.int 3)]) = .ok E ∧
      E.map Prod.fst =
        ["video_youtube", "video_vimeo", "video_moddb", "video_indiedb"] ∧
      ∀ platform ∈ videoPlatforms,
        lookupV E ("video_" ++ platform) =
          some (.str (if hasKey [("youtube", Value.str "u"), ("junk", Value.int 3)]
                        platform
                      then pyStr (dgetD [("youtube", Value.str "u"), ("junk", Value.int 3)]
                                    platform .null) else "")) :=
  c2_extract_video_info_nonempty [("youtube", Value.str "u"), ("junk", Value.int 3)]
    (by simp)

/-! ### Claim C1 -/

/-- The four video column names in insertion order. -/
def videoCols : List String :=
  ["video_youtube", "video_vimeo", "video_moddb", "video_indiedb"]

/-- C1 (amended): the projected row of a successfully projected record always
has the seventeen non-video canonical keys in insertion order, followed by
exactly the keys the video extraction contributed — none or all four video
columns. All four are present whenever the `video` field holds a non-empty
mapping, and none when the `video` field is absent or otherwise falsy; only
in the former case is the key set the full set of 21 canonical column names
(a permutation of the canonical column order). -/
theorem c1_process_game_data_keys {v : Value} {row : Row}
    (h : process_game_data v = .ok row) :
    ∃ g E, v = .dict g ∧
      extract_video_info (dgetD g "video" (.dict [])) = .ok E ∧
      row.map Prod.fst = projKeys17 ++ E.map Prod.fst ∧
      (E.map Prod.fst = [] ∨ E.map Prod.fst = videoCols) ∧
      ((∃ d, dgetD g "video" (.dict []) = .dict d ∧ d ≠ []) →
        E.map Prod.fst = videoCols) ∧
      (pyTruthy (dgetD g "video" (.dict [])) = false → E = []) ∧
      (projKeys17 ++ videoCols).Perm ordered_fields := by
  obtain ⟨g, rfl⟩ := process_ok_dict h
  obtain ⟨o, l, fw, lic, im, mp, E, -, -, -, -, -, -, hvid, hrow⟩ :=
    process_row_structure h
  subst hrow
  refine ⟨g, E, rfl, hvid, ?_, ?_, ?_, ?_, by decide⟩
  · rw [List.map_append, row17_keys]
  · rcases extract_ok_keys hvid with rfl | hEk
    · left; rfl
    · right; exact hEk
  · rintro ⟨d, hd, hdne⟩
    rw [hd, extract_video_info_dict hdne] at hvid
    cases hvid
    rfl
  · intro hfal
    have hnil : extract_video_info (dgetD g "video" (.dict [])) = .ok [] := by
      unfold extract_video_info
      rw [hfal]
      rfl
    rw [hnil] at hvid
    cases hvid
    rfl

/-- C1 counterexample: for the record with no `video` field at all, the
projected row's key set is only the seventeen non-video names — the four
`video_*` keys are absent, not mapped to the empty string. -/
theorem c1_counterexample :
    (∃ row, process_game_data (Value.dict []) = .ok row ∧
      row.map Prod.fst = projKeys17) ∧
    "video_youtube" ∈ ordered_fields ∧
    "video_youtube" ∉ projKeys17 ∧
    projKeys17 ≠ ordered_fields :=
  ⟨⟨_, rfl, rfl⟩, by decide, by decide, by decide⟩

/-- Witness for C1 (amended): a record whose `video` field is a non-empty
mapping does project to a row with all 21 canonical keys. -/
theorem c1_witness :
    ∃ row, process_game_data
        (Value.dict [("video", Value.dict [("youtube", Value.str "u")])]) = .ok row ∧
      row.map Prod.fst = projKeys17 ++ videoCols := by
  obtain ⟨row, hrow⟩ : ∃ row, process_game_data
      (Value.dict [("video", Value.dict [("youtube", Value.str "u")])]) = .ok row :=
    ⟨_, rfl⟩
  obtain ⟨g, E, hg, hvid, hkeys, -, hsuf, -, -⟩ := c1_process_game_data_keys hrow
  injection hg with hg2
  subst hg2
  have hcols := hsuf ⟨[("youtube", Value.str "u")], rfl, by simp⟩
  exact ⟨row, hrow, by rw [hkeys, hcols]⟩

/-! ### Claim C7 -/

/-- The eleven directly copied fields. -/
def directFields : List String :=
  ["name", "type", "status", "development", "content", "repo", "url", "feed",
   "info", "added", "updated"]

/-- The six flattened list fields. -/
def listFields : List String :=
  ["originals", "langs", "frameworks", "licenses", "images", "multiplayer"]

theorem lookupV_append_left : ∀ {d1 : Row} {k : String} (d2 : Row),
    hasKey d1 k = true → lookupV (d1 ++ d2) k = lookupV d1 k := by
  intro d1
  induction d1 with
  | nil => intro k d2 h; cases h
  | cons p d1 ih =>
    intro k d2 h
    obtain ⟨k2, v⟩ := p
    rw [hasKey_cons] at h
    by_cases hk : (k2 == k) = true
    · simp [lookupV, List.find?_cons, hk]
    · have h2 : hasKey d1 k = true := by
        rcases Bool.or_eq_true_iff.mp h with h1 | h1
        · exact absurd h1 hk
        · exact h1
      have hk2 : (k2 == k) = false := by
        rw [Bool.eq_false_iff]; exact hk
      simp only [List.cons_append, lookupV, List.find?_cons, hk2]
      exact ih d2 h2

/-- C7 (amended): in the projected row of a mapping record, the six flattened
list columns and the four video columns always hold strings, but the eleven
direct fields carry the record's raw value unchanged (the empty string only
when the field is absent) — such a value need not be a string and can be a
number, a date-like scalar, or even `None`. -/
theorem c7_process_game_data_values {v : Value} {row : Row}
    (h : process_game_data v = .ok row) :
    ∃ g, v = .dict g ∧
      (∀ k ∈ directFields, lookupV row k = some (dgetD g k (.str ""))) ∧
      (∀ k ∈ listFields, ∃ s, lookupV row k = some (.str s)) ∧
      (∀ E, extract_video_info (dgetD g "video" (.dict [])) = .ok E →
        ∀ p ∈ E, ∃ s, p.2 = .str s) := by
  obtain ⟨g, rfl⟩ := process_ok_dict h
  obtain ⟨o, l, fw, lic, im, mp, E, -, -, -, -, -, -, hvid, hrow⟩ :=
    process_row_structure h
  subst hrow
  refine ⟨g, rfl, ?_, ?_, fun E2 hEq => extract_values_str hEq⟩
  · intro k hk
    rcases (by simpa [directFields] using hk) with
      rfl | rfl | rfl | rfl | rfl | rfl | rfl | rfl | rfl | rfl | rfl <;> rfl
  · intro k hk
    rcases (by simpa [listFields] using hk) with rfl | rfl | rfl | rfl | rfl | rfl <;>
      exact ⟨_, rfl⟩

/-- C7 counterexample: a present field of non-string shape is passed through
as-is by the projector — the row holds the integer 42 (and even `None`),
not a string. -/
theorem c7_counterexample :
    (∃ row, process_game_data (Value.dict [("name", Value.int 42)]) = .ok row ∧
      lookupV row "name" = some (Value.int 42) ∧
      (Value.int 42).isStr = false) ∧
    (∃ row, process_game_data (Value.dict [("added", Value.null)]) = .ok row ∧
      lookupV row "added" = some Value.null) :=
  ⟨⟨_, rfl, rfl, rfl⟩, ⟨_, rfl, rfl⟩⟩

/-- Witness for C7 (amended) at a concrete record. -/
theorem c7_witness :
    ∃ row, process_game_data (Value.dict [("name", Value.str "Foo")]) = .ok row ∧
      lookupV row "name" = some (Value.str "Foo") ∧
      ∀ k ∈ listFields, ∃ s, lookupV row k = some (.str s) := by
  obtain ⟨row, hrow⟩ : ∃ row, process_game_data
      (Value.dict [("name", Value.str "Foo")]) = .ok row := ⟨_, rfl⟩
  obtain ⟨g, hg, hdir, hlist, -⟩ := c7_process_game_data_values hrow
  injection hg with hg2
  subst hg2
  exact ⟨row, hrow, by simpa using hdir "name" (by decide), hlist⟩


/-! ### Helper lemmas: the lexicographic order -/

theorem lexLe_cons_iff (x y : Char) (xs ys : List Char) :
    lexLe (x :: xs) (y :: ys) = true ↔
      (x.toNat < y.toNat ∨ (x.toNat = y.toNat ∧ lexLe xs ys = true)) := by
  simp only [lexLe]
  by_cases h1 : x.toNat < y.toNat
  · simp [h1]
  · by_cases h2 : y.toNat < x.toNat
    · simp [h1, h2]
      omega
    · have h3 : x.toNat = y.toNat := by omega
      simp [h1, h2, h3]

theorem lexLe_total : ∀ a b : List Char, lexLe a b = true ∨ lexLe b a = true := by
  intro a
  induction a with
  | nil => intro b; left; rfl
  | cons x xs ih =>
    intro b
    cases b with
    | nil => right; rfl
    | cons y ys =>
      rw [lexLe_cons_iff, lexLe_cons_iff]
      rcases Nat.lt_trichotomy x.toNat y.toNat with h | h | h
      · left; exact Or.inl h
      · rcases ih ys with h4 | h4
        · left; exact Or.inr ⟨h, h4⟩
        · right; exact Or.inr ⟨h.symm, h4⟩
      · right; exact Or.inl h

theorem lexLe_trans : ∀ {a b c : List Char},
    lexLe a b = true → lexLe b c = true → lexLe a c = true := by
  intro a
  induction a with
  | nil => intro b c _ _; rfl
  | cons x xs ih =>
    intro b c hab hbc
    cases b with
    | nil => exact Bool.noConfusion hab
    | cons y ys =>
      cases c with
      | nil => exact Bool.noConfusion hbc
      | cons z zs =>
        rw [lexLe_cons_iff] at hab hbc ⊢
        rcases hab with h1 | ⟨h1, h1r⟩
        · rcases hbc with h2 | ⟨h2, -⟩
          · exact Or.inl (by omega)
          · exact Or.inl (by omega)
        · rcases hbc with h2 | ⟨h2, h2r⟩
          · exact Or.inl (by omega)
          · exact Or.inr ⟨by omega, ih h1r h2r⟩

instance : IsTotal (String × Except String Value)
    (fun a b => strLeB a.1 b.1 = true) :=
  ⟨fun a b => lexLe_total a.1.data b.1.data⟩

instance : IsTrans (String × Except String Value)
    (fun a b => strLeB a.1 b.1 = true) :=
  ⟨fun _ _ _ hab hbc => lexLe_trans hab hbc⟩

instance : IsTotal String (fun a b => strLeB a b = true) :=
  ⟨fun a b => lexLe_total a.data b.data⟩

instance : IsTrans String (fun a b => strLeB a b = true) :=
  ⟨fun _ _ _ hab hbc => lexLe_trans hab hbc⟩

/-! ### Helper lemmas: the loader -/

/-- The records one directory entry contributes to the run. -/
def fileGames (f : String × Except String Value) : List Value :=
  match f.2 with
  | .error _ => []
  | .ok v => if pyTruthy v then (pyIterate v).getD [] else []

/-- The lines one directory entry contributes to the log. -/
def fileLog (f : String × Except String Value) : List String :=
  ("Processing " ++ f.1 ++ "...") ::
  (match f.2 with
   | .error e => ["Error processing " ++ f.1 ++ ": " ++ e]
   | .ok v =>
     if pyTruthy v then
       match pyIterate v with
       | some _ => []
       | none => ["Error processing " ++ f.1 ++ ": TypeError: object is not iterable"]
     else [])

theorem loader_foldl :
    ∀ (L : List (String × Except String Value)) (g0 : List Value) (l0 : List String),
      L.foldl processFile (g0, l0) =
        (g0 ++ (L.map fileGames).flatten, l0 ++ (L.map fileLog).flatten) := by
  intro L
  induction L with
  | nil => intro g0 l0; simp
  | cons f L ih =>
    intro g0 l0
    rw [List.foldl_cons]
    have hstep : processFile (g0, l0) f = (g0 ++ fileGames f, l0 ++ fileLog f) := by
      unfold processFile fileGames fileLog
      cases hf : f.2 with
      | error e => simp
      | ok v =>
        by_cases ht : pyTruthy v
        · cases hi : pyIterate v with
          | some items => simp [ht, hi]
          | none => simp [ht, hi]
        · simp [ht]
    rw [hstep, ih]
    simp

theorem load_games_eq (files : List (String × Except String Value)) :
    load_games_from_yaml_files files =
      (((sorted_yaml_files files).map fileGames).flatten,
       ((sorted_yaml_files files).map fileLog).flatten) := by
  unfold load_games_from_yaml_files
  rw [loader_foldl]
  simp

theorem sorted_yaml_files_sorted (files : List (String × Except String Value)) :
    List.Sorted (fun a b => strLeB a.1 b.1 = true) (sorted_yaml_files files) := by
  unfold sorted_yaml_files
  exact List.sorted_insertionSort _ _


/-! ### Helper lemmas: field names and the CSV writer -/

theorem mapE_ok {β γ : Type} (h : β → γ) (b : β) :
    (Except.ok b : Except String β).map h = .ok (h b) := rfl

theorem mapE_error {β γ : Type} (h : β → γ) (e : String) :
    ((Except.error e : Except String β).map h : Except String γ) = .error e := rfl

theorem mapM_ok_mem_rev {α β : Type} {f : α → Except String β} :
    ∀ {l : List α} {r : List β}, l.mapM f = .ok r →
      ∀ b ∈ r, ∃ a ∈ l, f a = .ok b := by
  intro l
  induction l with
  | nil =>
    intro r h b hb
    rw [List.mapM_nil] at h
    cases h
    cases hb
  | cons x l ih =>
    intro r h b hb
    obtain ⟨b0, bs, hfx, hml, rfl⟩ := mapM_ok_cons h
    rcases List.mem_cons.mp hb with rfl | hb2
    · exact ⟨x, by simp, hfx⟩
    · obtain ⟨a, ha, hfa⟩ := ih hml b hb2
      exact ⟨a, by simp [ha], hfa⟩

theorem mapM_map_of_ok {α β γ : Type} {f : α → Except String β} {h : β → γ} :
    ∀ {l : List α} {P : List β}, l.mapM f = .ok P →
      l.mapM (fun a => (f a).map h) = .ok (P.map h) := by
  intro l
  induction l with
  | nil =>
    intro P hm
    rw [List.mapM_nil] at hm
    cases hm
    rw [List.mapM_nil]
    rfl
  | cons a l ih =>
    intro P hm
    obtain ⟨b, bs, hfa, hml, rfl⟩ := mapM_ok_cons hm
    simp only [List.mapM_cons]
    rw [hfa, mapE_ok, bindE_ok, ih hml, bindE_ok]
    rfl

theorem mapM_map_of_error {α β γ : Type} {f : α → Except String β} {h : β → γ} :
    ∀ {l : List α} {e : String}, l.mapM f = .error e →
      l.mapM (fun a => (f a).map h) = .error e := by
  intro l
  induction l with
  | nil =>
    intro e hm
    rw [List.mapM_nil] at hm
    cases hm
  | cons a l ih =>
    intro e hm
    rw [List.mapM_cons] at hm
    simp only [List.mapM_cons]
    cases hfa : f a with
    | error e2 =>
      rw [hfa, bindE_error] at hm
      cases hm
      rw [mapE_error, bindE_error]
    | ok b =>
      rw [hfa, bindE_ok] at hm
      rw [mapE_ok, bindE_ok]
      cases hml : l.mapM f with
      | error e2 =>
        rw [hml, bindE_error] at hm
        cases hm
        rw [ih hml, bindE_error]
      | ok bs =>
        rw [hml, bindE_ok] at hm
        cases hm

theorem mapM_of_pointwise {α β : Type} {f : α → Except String β} {h : α → β} :
    ∀ {l : List α}, (∀ a ∈ l, f a = .ok (h a)) → l.mapM f = .ok (l.map h) := by
  intro l
  induction l with
  | nil => intro _; rw [List.mapM_nil]; rfl
  | cons a l ih =>
    intro hall
    rw [List.mapM_cons, hall a (by simp), bindE_ok,
        ih (fun x hx => hall x (by simp [hx])), bindE_ok]
    rfl

theorem get_all_field_names_eq_of_mapM {games : List Value} {P : List Row}
    (hm : games.mapM process_game_data = .ok P) :
    get_all_field_names games = .ok ordered_fields := by
  unfold get_all_field_names
  rw [mapM_map_of_ok hm, bindE_ok]
  have hfil : ((P.map (fun r => r.map Prod.fst)).flatten.dedup.filter
      (fun k => !ordered_fields.contains k)) = [] := by
    rw [List.filter_eq_nil_iff]
    intro a ha
    have ha2 : a ∈ (P.map (fun r => r.map Prod.fst)).flatten := List.mem_dedup.mp ha
    obtain ⟨ks, hks, hak⟩ := List.mem_flatten.mp ha2
    obtain ⟨row, hrow, rfl⟩ := List.mem_map.mp hks
    obtain ⟨g, hg, hpg⟩ := mapM_ok_mem_rev hm row hrow
    have hmem := process_keys_sub hpg a hak
    simp [hmem]
  show (pure (ordered_fields ++ sortStrings
      (((P.map (fun r => r.map Prod.fst)).flatten.dedup).filter
        (fun k => !ordered_fields.contains k))) : Except String (List String)) =
    .ok ordered_fields
  rw [hfil]
  rfl

theorem get_all_field_names_eq {games : List Value} {cols : List String}
    (h : get_all_field_names games = .ok cols) : cols = ordered_fields := by
  cases hm : games.mapM
      (fun game => (process_game_data game).map (fun r => r.map Prod.fst)) with
  | error e =>
    have he : get_all_field_names games = .error e := by
      unfold get_all_field_names
      rw [hm, bindE_error]
    rw [he] at h
    cases h
  | ok keyss =>
    obtain ⟨P, hP, rfl⟩ := mapM_map_ok hm
    rw [get_all_field_names_eq_of_mapM hP] at h
    cases h
    rfl

theorem dict_to_list_ok {fn : List String} {row : Row}
    (h : ∀ p ∈ row, p.1 ∈ fn) :
    dict_to_list fn row = .ok (fn.map (fun k => lookupV row k)) := by
  unfold dict_to_list
  have hany : (row.any fun p => !(fn.contains p.1)) = false := by
    rw [List.any_eq_false]
    intro p hp
    simp [h p hp]
  rw [hany]
  simp

/-- The rendering of one data row by the CSV writer: one cell per field name,
in field order. -/
def renderRow (fn : List String) (r : Row) : List String :=
  fn.map (fun k => csvCell (lookupV r k))

theorem export_to_csv_ok {games : List Value} {P : List Row}
    (hne : games ≠ [])
    (hm : games.mapM process_game_data = .ok P) :
    export_to_csv games = .success
      ⟨ordered_fields, P.map (renderRow ordered_fields)⟩
      ["Exported " ++ toString P.length ++ " games to games_export.csv",
       "Fields: " ++ ", ".intercalate ordered_fields] := by
  unfold export_to_csv
  have ht : pyTruthy (.list games) = true := by
    cases games with
    | nil => cases hne rfl
    | cons a l => simp [pyTruthy]
  rw [ht]
  simp only [Bool.true_eq_false, if_false]
  rw [get_all_field_names_eq_of_mapM hm, hm]
  have hrows : P.mapM
      (fun r => (dict_to_list ordered_fields r).map (fun cs => cs.map csvCell)) =
      .ok (P.map (renderRow ordered_fields)) := by
    apply mapM_of_pointwise
    intro r hr
    obtain ⟨g, hg, hpg⟩ := mapM_ok_mem_rev hm r hr
    rw [dict_to_list_ok (fun p hp => process_keys_sub hpg p.1
      (List.mem_map_of_mem Prod.fst hp))]
    rw [mapE_ok]
    unfold renderRow
    rw [List.map_map]
    rfl
  dsimp only
  rw [hrows]

theorem export_to_csv_early {games : List Value} {e : String}
    (hne : games ≠ [])
    (hm : games.mapM process_game_data = .error e) :
    export_to_csv games = .earlyError e := by
  unfold export_to_csv
  have ht : pyTruthy (.list games) = true := by
    cases games with
    | nil => cases hne rfl
    | cons a l => simp [pyTruthy]
  rw [ht]
  simp only [Bool.true_eq_false, if_false]
  have hg : get_all_field_names games = .error e := by
    unfold get_all_field_names
    rw [mapM_map_of_error hm, bindE_error]
  rw [hg]

/-! ### Claim C3 -/

/-- C3: the Column List, whenever the resolver succeeds, begins with the
fixed 21-name canonical prefix in its fixed order, is followed by exactly
those keys appearing in some record's projection but not in the prefix
(an empty remainder, since projections never produce other keys), the
trailing part is strictly sorted and disjoint from the prefix, and the
result is a superset of every projected row's key set. -/
theorem c3_get_all_field_names {games : List Value} {cols : List String}
    (h : get_all_field_names games = .ok cols) :
    cols.take ordered_fields.length = ordered_fields ∧
    List.Sorted (fun a b => strLtB a b = true) (cols.drop ordered_fields.length) ∧
    (∀ k, k ∈ cols.drop ordered_fields.length ↔
      (k ∉ ordered_fields ∧
        ∃ g ∈ games, ∃ row, process_game_data g = .ok row ∧ k ∈ row.map Prod.fst)) ∧
    (∀ g ∈ games, ∀ row, process_game_data g = .ok row →
      ∀ k ∈ row.map Prod.fst, k ∈ cols) := by
  have hc := get_all_field_names_eq h
  subst hc
  refine ⟨by simp, ?_, ?_, ?_⟩
  · rw [List.drop_length]
    exact List.sorted_nil
  · intro k
    rw [List.drop_length]
    constructor
    · intro hk
      exact absurd hk (List.not_mem_nil k)
    · rintro ⟨hk1, g, hg, row, hrow, hk2⟩
      exact absurd (process_keys_sub hrow k hk2) hk1
  · intro g hg row hrow k hk
    exact process_keys_sub hrow k hk

/-- Witness for C3 at a one-record input. -/
theorem c3_witness :
    ordered_fields.take ordered_fields.length = ordered_fields ∧
    List.Sorted (fun a b => strLtB a b = true)
      (ordered_fields.drop ordered_fields.length) ∧
    (∀ k, k ∈ ordered_fields.drop ordered_fields.length ↔
      (k ∉ ordered_fields ∧ ∃ g ∈ [Value.dict []], ∃ row,
        process_game_data g = .ok row ∧ k ∈ row.map Prod.fst)) ∧
    (∀ g ∈ [Value.dict []], ∀ row, process_game_data g = .ok row →
      ∀ k ∈ row.map Prod.fst, k ∈ ordered_fields) :=
  c3_get_all_field_names
    (show get_all_field_names [Value.dict []] = .ok ordered_fields from rfl)

/-! ### Claim C4 -/

/-- C4: the loader is a total function on any directory listing — a parse
failure of one file only skips that file: the loaded records are exactly the
concatenation of the per-file contributions (parse failures contributing
nothing), every failing file is reported by name together with its cause,
and the records of every successfully parsed file appear intact in the
result. -/
theorem c4_loader_per_file_failure (files : List (String × Except String Value)) :
    (load_games_from_yaml_files files).1 =
      ((sorted_yaml_files files).map fileGames).flatten ∧
    (∀ f ∈ sorted_yaml_files files, ∀ e, f.2 = .error e →
      ("Error processing " ++ f.1 ++ ": " ++ e) ∈
        (load_games_from_yaml_files files).2) ∧
    (∀ f ∈ sorted_yaml_files files, ∀ v items, f.2 = .ok v →
      pyTruthy v = true → pyIterate v = some items →
      items <:+: (load_games_from_yaml_files files).1) := by
  rw [load_games_eq]
  dsimp only
  refine ⟨rfl, ?_, ?_⟩
  · intro f hf e hfe
    apply List.mem_flatten.mpr
    refine ⟨fileLog f, List.mem_map_of_mem fileLog hf, ?_⟩
    unfold fileLog
    rw [hfe]
    simp
  · intro f hf v items hfv ht hit
    have hfg : fileGames f = items := by
      unfold fileGames
      rw [hfv]
      simp [ht, hit]
    rw [← hfg]
    exact List.infix_of_mem_flatten (List.mem_map_of_mem fileGames hf)

/-- Witness for C4: a directory with one good file and one malformed file —
the failure is reported with the file name and cause, and the good file's
records survive. -/
theorem c4_witness :
    ("Error processing b.yaml: boom") ∈
      (load_games_from_yaml_files
        [("a.yaml", Except.ok (Value.list [Value.int 1])),
         ("b.yaml", Except.error "boom")]).2 ∧
    [Value.int 1] <:+:
      (load_games_from_yaml_files
        [("a.yaml", Except.ok (Value.list [Value.int 1])),
         ("b.yaml", Except.error "boom")]).1 := by
  have h := c4_loader_per_file_failure
    [("a.yaml", Except.ok (Value.list [Value.int 1])),
     ("b.yaml", Except.error "boom")]
  have hsort : sorted_yaml_files
      [("a.yaml", Except.ok (Value.list [Value.int 1])),
       ("b.yaml", Except.error "boom")] =
      [("a.yaml", Except.ok (Value.list [Value.int 1])),
       ("b.yaml", Except.error "boom")] := rfl
  refine ⟨h.2.1 ("b.yaml", Except.error "boom") ?_ "boom" rfl,
          h.2.2 ("a.yaml", Except.ok (Value.list [Value.int 1])) ?_
            (Value.list [Value.int 1]) [Value.int 1] rfl rfl rfl⟩
  · rw [hsort]
    simp
  · rw [hsort]
    simp


/-! ### Claim C5 -/

/-- C5 (amended): a missing games directory, or an empty loaded record
sequence, terminates the run with exit status 1 and a diagnostic, before any
output file is created; the run never leaves a partially written output
file; when the directory exists and records were loaded, the run exits 0
with the complete output file if every record projects, but an unhandled
projection exception also exits nonzero — still with no output file, since
it is raised before the file is opened. -/
theorem c5_main_exit_and_output (d : Bool)
    (files : List (String × Except String Value)) :
    ((main d files).outFile ≠ OutFile.incompleteFile) ∧
    (d = false → main d files =
      ⟨1, .noFile, ["Games directory not found: games"]⟩) ∧
    (d = true → (load_games_from_yaml_files files).1 = [] →
      (main d files).exitCode = 1 ∧ (main d files).outFile = .noFile ∧
      "No games found in YAML files." ∈ (main d files).stdout) ∧
    (d = true → (load_games_from_yaml_files files).1 ≠ [] →
      (∃ e, (load_games_from_yaml_files files).1.mapM process_game_data =
          .error e ∧
        (main d files).exitCode = 1 ∧ (main d files).outFile = .noFile) ∨
      (∃ P, (load_games_from_yaml_files files).1.mapM process_game_data = .ok P ∧
        (main d files).exitCode = 0 ∧
        (main d files).outFile =
          .file ⟨ordered_fields, P.map (renderRow ordered_fields)⟩)) := by
  cases hload : load_games_from_yaml_files files with
  | mk G log =>
  cases d with
  | false =>
    refine ⟨?_, fun _ => rfl, fun hd _ => absurd hd (by simp),
            fun hd _ => absurd hd (by simp)⟩
    rw [show main false files =
      ⟨1, .noFile, ["Games directory not found: games"]⟩ from rfl]
    simp
  | true =>
    have hmain : main true files =
        (if pyTruthy (.list G) = false then
          ⟨1, .noFile, (["Loading games from YAML files..."] ++ log) ++
            ["No games found in YAML files."]⟩
        else
          match export_to_csv G with
          | .skipped m => ⟨0, .noFile,
              ((["Loading games from YAML files..."] ++ log) ++
                ["Loaded " ++ toString G.length ++ " games from YAML files.",
                 "Exporting to CSV..."]) ++
              [m, "Export complete! CSV file saved to: games_export.csv"]⟩
          | .earlyError e => ⟨1, .noFile,
              ((["Loading games from YAML files..."] ++ log) ++
                ["Loaded " ++ toString G.length ++ " games from YAML files.",
                 "Exporting to CSV..."]) ++ [e]⟩
          | .midwriteError e => ⟨1, .incompleteFile,
              ((["Loading games from YAML files..."] ++ log) ++
                ["Loaded " ++ toString G.length ++ " games from YAML files.",
                 "Exporting to CSV..."]) ++ [e]⟩
          | .success f msgs => ⟨0, .file f,
              ((["Loading games from YAML files..."] ++ log) ++
                ["Loaded " ++ toString G.length ++ " games from YAML files.",
                 "Exporting to CSV..."]) ++ msgs ++
              ["Export complete! CSV file saved to: games_export.csv"]⟩
          : MainResult) := by
      unfold main
      rw [if_neg (by simp), hload]
    refine ⟨?_, fun hd => absurd hd (by simp), fun _ hGe => ?_, fun _ hGne => ?_⟩
    · rw [hmain]
      by_cases hG : pyTruthy (.list G) = false
      · rw [if_pos hG]
        simp
      · rw [if_neg hG]
        have hGne : G ≠ [] := by
          intro h0
          subst h0
          exact hG rfl
        cases hh : G.mapM process_game_data with
        | error e =>
          rw [export_to_csv_early hGne hh]
          simp
        | ok P =>
          rw [export_to_csv_ok hGne hh]
          simp
    · have hGe2 : G = [] := hGe
      subst hGe2
      rw [hmain, if_pos (show pyTruthy (Value.list []) = false from rfl)]
      refine ⟨rfl, rfl, ?_⟩
      simp
    · have hGne2 : G ≠ [] := hGne
      have ht : pyTruthy (.list G) = true := by
        cases G with
        | nil => cases hGne2 rfl
        | cons a l => simp [pyTruthy]
      cases hh : G.mapM process_game_data with
      | error e =>
        left
        refine ⟨e, rfl, ?_⟩
        rw [hmain, if_neg (by simp [ht]), export_to_csv_early hGne2 hh]
        exact ⟨rfl, rfl⟩
      | ok P =>
        right
        refine ⟨P, rfl, ?_⟩
        rw [hmain, if_neg (by simp [ht]), export_to_csv_ok hGne2 hh]
        exact ⟨rfl, rfl⟩

/-- C5 counterexample: the games directory exists and one record was loaded,
yet the run exits with status 1 (the record's `langs` field is an integer,
so the projection raises) — refuting "otherwise it exits zero". -/
theorem c5_counterexample :
    (load_games_from_yaml_files
      [("a.yaml", Except.ok (Value.list [Value.dict [("langs", Value.int 5)]]))]).1 =
      [Value.dict [("langs", Value.int 5)]] ∧
    (main true
      [("a.yaml", Except.ok (Value.list [Value.dict [("langs", Value.int 5)]]))]).exitCode
      = 1 ∧
    (main true
      [("a.yaml", Except.ok (Value.list [Value.dict [("langs", Value.int 5)]]))]).outFile
      = OutFile.noFile :=
  ⟨rfl, rfl, rfl⟩

/-- Witness for C5 (amended): on a directory with one well-formed one-record
file the run exits 0 with a complete output file, and on a missing directory
it exits 1 with no file. -/
theorem c5_witness :
    (main true [("a.yaml", Except.ok (Value.list [Value.dict []]))]).exitCode = 0 ∧
    (main true [("a.yaml", Except.ok (Value.list [Value.dict []]))]).outFile ≠
      OutFile.incompleteFile ∧
    main false [] = ⟨1, .noFile, ["Games directory not found: games"]⟩ := by
  have h := c5_main_exit_and_output true
    [("a.yaml", Except.ok (Value.list [Value.dict []]))]
  have hne : (load_games_from_yaml_files
      [("a.yaml", Except.ok (Value.list [Value.dict []]))]).1 ≠ [] := by
    rw [show (load_games_from_yaml_files
      [("a.yaml", Except.ok (Value.list [Value.dict []]))]).1 =
      [Value.dict []] from rfl]
    simp
  have h4 := h.2.2.2 rfl hne
  rcases h4 with ⟨e, he, -⟩ | ⟨P, hP, hexit, -⟩
  · obtain ⟨P0, hP0⟩ : ∃ P0, (load_games_from_yaml_files
        [("a.yaml", Except.ok (Value.list [Value.dict []]))]).1.mapM
        process_game_data = .ok P0 := ⟨_, rfl⟩
    rw [hP0] at he
    cases he
  · exact ⟨hexit, h.1, (c5_main_exit_and_output false []).2.1 rfl⟩

/-! ### Claim C6 -/

/-- C6: the loaded record sequence is the concatenation of the per-file
records over the `.yaml` files in ascending lexical filename order; whenever
the export succeeds the output holds exactly one data row per loaded record,
the row count equals the record count, and the i-th row is the rendering of
the i-th record's projection — no reordering and no deduplication anywhere. -/
theorem c6_one_row_per_record_in_order
    (files : List (String × Except String Value)) :
    (load_games_from_yaml_files files).1 =
      ((sorted_yaml_files files).map fileGames).flatten ∧
    List.Sorted (fun a b => strLeB a.1 b.1 = true) (sorted_yaml_files files) ∧
    (∀ P, (load_games_from_yaml_files files).1 ≠ [] →
      (load_games_from_yaml_files files).1.mapM process_game_data = .ok P →
      export_to_csv (load_games_from_yaml_files files).1 =
        .success ⟨ordered_fields, P.map (renderRow ordered_fields)⟩
          ["Exported " ++ toString P.length ++ " games to games_export.csv",
           "Fields: " ++ ", ".intercalate ordered_fields] ∧
      (P.map (renderRow ordered_fields)).length =
        (load_games_from_yaml_files files).1.length ∧
      ∀ i (hi : i < (load_games_from_yaml_files files).1.length)
          (hi2 : i < P.length),
        process_game_data (load_games_from_yaml_files files).1[i] = .ok P[i]) := by
  refine ⟨by rw [load_games_eq], sorted_yaml_files_sorted files, ?_⟩
  intro P hne hm
  refine ⟨export_to_csv_ok hne hm, ?_, mapM_ok_getElem hm⟩
  rw [List.length_map, mapM_ok_length hm]

/-- Witness for C6: two files listed out of order — the records load in
ascending filename order and produce one row each, in that order. -/
theorem c6_witness :
    (load_games_from_yaml_files
      [("b.yaml", Except.ok (Value.list [Value.dict []])),
       ("a.yaml", Except.ok (Value.list [Value.dict [("name", Value.str "x")]]))]).1 =
      [Value.dict [("name", Value.str "x")], Value.dict []] ∧
    ∃ P, (load_games_from_yaml_files
        [("b.yaml", Except.ok (Value.list [Value.dict []])),
         ("a.yaml", Except.ok (Value.list [Value.dict [("name", Value.str "x")]]))]).1.mapM
        process_game_data = .ok P ∧
      export_to_csv (load_games_from_yaml_files
        [("b.yaml", Except.ok (Value.list [Value.dict []])),
         ("a.yaml", Except.ok (Value.list [Value.dict [("name", Value.str "x")]]))]).1 =
        .success ⟨ordered_fields, P.map (renderRow ordered_fields)⟩
          ["Exported " ++ toString P.length ++ " games to games_export.csv",
           "Fields: " ++ ", ".intercalate ordered_fields] ∧
      (P.map (renderRow ordered_fields)).length = 2 := by
  have h := c6_one_row_per_record_in_order
    [("b.yaml", Except.ok (Value.list [Value.dict []])),
     ("a.yaml", Except.ok (Value.list [Value.dict [("name", Value.str "x")]]))]
  obtain ⟨P, hP⟩ : ∃ P, (load_games_from_yaml_files
      [("b.yaml", Except.ok (Value.list [Value.dict []])),
       ("a.yaml", Except.ok (Value.list [Value.dict [("name", Value.str "x")]]))]).1.mapM
      process_game_data = .ok P := ⟨_, rfl⟩
  have hparts := h.2.2 P (by
    rw [show (load_games_from_yaml_files
      [("b.yaml", Except.ok (Value.list [Value.dict []])),
       ("a.yaml", Except.ok (Value.list [Value.dict [("name", Value.str "x")]]))]).1 =
      [Value.dict [("name", Value.str "x")], Value.dict []] from rfl]
    simp) hP
  exact ⟨rfl, P, hP, hparts.1, (hparts.2.1).trans rfl⟩

/-! ### Claim C9 -/

/-- C9: when a projected row lacks a key of the field-name list (as happens
for the video columns of a record with no `video` field), the CSV writer's
row conversion still succeeds, produces exactly one cell per field name, and
the cell for each missing key is the `restval` `None`, which the writer
renders as the empty string — header/value alignment is preserved. -/
theorem c9_missing_key_renders_empty {fn : List String} {row : Row}
    (h : ∀ p ∈ row, p.1 ∈ fn) :
    ∃ cells, dict_to_list fn row = .ok cells ∧
      cells.length = fn.length ∧
      (cells.map csvCell).length = fn.length ∧
      ∀ i (hi : i < fn.length) (hi2 : i < cells.length),
        fn[i] ∉ row.map Prod.fst → cells[i] = none ∧ csvCell none = "" := by
  refine ⟨fn.map (fun k => lookupV row k), dict_to_list_ok h, by simp, by simp, ?_⟩
  intro i hi hi2 hk
  refine ⟨?_, rfl⟩
  rw [List.getElem_map]
  unfold lookupV
  rw [List.find?_eq_none.mpr ?_]
  · rfl
  · intro p hp
    intro hpe
    exact hk (List.mem_map.mpr ⟨p, hp, by simpa using hpe⟩)

/-- Witness for C9: the canonical field names against a row having only a
`name` key — every other column renders as the empty string. -/
theorem c9_witness :
    ∃ cells, dict_to_list ordered_fields [("name", Value.str "x")] = .ok cells ∧
      cells.length = ordered_fields.length ∧
      (cells.map csvCell).length = ordered_fields.length ∧
      ∀ i (hi : i < ordered_fields.length) (hi2 : i < cells.length),
        ordered_fields[i] ∉ ([("name", Value.str "x")] : Row).map Prod.fst →
          cells[i] = none ∧ csvCell none = "" :=
  c9_missing_key_renders_empty (by
    intro p hp
    have hp2 := List.mem_singleton.mp hp
    subst hp2
    decide)


end ExportGames
